import Mathlib

/-!
Shallow embedding of the pr-reviewer-service core (Go, PostgreSQL-backed).

The embedding models the relational store as an explicit in-memory state
(`State`): the `teams`, `users`, `pull_requests` and `pull_request_reviewers`
tables, plus the database clock (`now`, for `NOW()`).  Each store operation of
`internal/storage/store.go` becomes a pure function `State → ... → State ×
Except AppErr α`: the returned state is the database after the call (the Go
code runs each compound operation inside a transaction whose rollback discards
buffered writes, so an error branch that returns before `Commit` yields the
original state).  The random reviewer picker of `internal/service` is modelled
with an explicit randomness oracle `o : Nat → Nat` supplying the draw of
`rand.Int31n(i+1)` at each Fisher-Yates step of `rand.Shuffle` (the value is
reduced `% (i+1)`, which is exactly the guarantee `Int31n` gives).
-/

namespace PRReviewer

/-- Pull-request status, the `pr_status` enum (`'OPEN' | 'MERGED'`). -/
inductive Status where
  | opened
  | merged
deriving DecidableEq

/-- A row of the `users` table (`user_id, username, team_name, is_active,
updated_at`); `created_at` is never read by the service and is not modelled. -/
structure User where
  userID : String
  username : String
  teamName : String
  isActive : Bool
  updatedAt : Nat
deriving DecidableEq

/-- `domain.TeamMember`: a member inside a team payload. -/
structure TeamMember where
  userID : String
  username : String
  isActive : Bool
deriving DecidableEq

/-- `domain.Team`. -/
structure Team where
  teamName : String
  members : List TeamMember
deriving DecidableEq

/-- A row of the `pull_requests` table. -/
structure PRRow where
  prID : String
  prName : String
  authorID : String
  status : Status
  createdAt : Nat
  mergedAt : Option Nat
deriving DecidableEq

/-- `domain.PullRequest`: the PR record returned to clients, including the
assigned reviewer ids. -/
structure PullRequest where
  prID : String
  prName : String
  authorID : String
  status : Status
  assigned : List String
  createdAt : Nat
  mergedAt : Option Nat
deriving DecidableEq

/-- `domain.PullRequestShort`. -/
structure PullRequestShort where
  prID : String
  prName : String
  authorID : String
  status : Status
deriving DecidableEq

/-- `domain.UserReviews`. -/
structure UserReviews where
  userID : String
  pullRequests : List PullRequestShort
deriving DecidableEq

/-- The domain error taxonomy of `internal/domain/errors.go`; `notFound` and
`internal` keep the message so distinct detection points stay distinct. -/
inductive AppErr where
  | teamExists
  | prExists
  | prMerged
  | notAssigned
  | noCandidate
  | notFound (msg : String)
  | internal (msg : String)
deriving DecidableEq

/-- The database state: the four tables plus the clock used for `NOW()`.
`reviewers` is the `pull_request_reviewers` relation as a list of
`(pull_request_id, reviewer_id)` rows. -/
structure State where
  teams : List String
  users : List User
  prs : List PRRow
  reviewers : List (String × String)
  now : Nat
deriving DecidableEq

/-- `SELECT ... FROM users WHERE user_id=$1` (scan of a single row). -/
def findUser (st : State) (uid : String) : Option User :=
  st.users.find? (fun u => u.userID == uid)

/-- `SELECT ... FROM pull_requests WHERE pull_request_id=$1`. -/
def findPR (st : State) (prID : String) : Option PRRow :=
  st.prs.find? (fun r => r.prID == prID)

/-- `listAssignedReviewersTx`: `SELECT reviewer_id FROM pull_request_reviewers
WHERE pull_request_id=$1` (no ORDER BY). -/
def listAssignedReviewersTx (st : State) (prID : String) : List String :=
  (st.reviewers.filter (fun p => p.1 == prID)).map Prod.snd

/-- Lexicographic comparison of character sequences by code point, modelling
the total order the database uses for `ORDER BY` over text columns. -/
def lexLe : List Char → List Char → Bool
  | [], _ => true
  | _ :: _, [] => false
  | a :: as, b :: bs =>
      if a.toNat < b.toNat then true
      else if b.toNat < a.toNat then false
      else lexLe as bs

/-- The text order on ids used by `ORDER BY reviewer_id`. -/
def idLe (a b : String) : Prop := lexLe a.data b.data = true

instance : DecidableRel idLe :=
  fun a b => inferInstanceAs (Decidable (lexLe a.data b.data = true))

/-- `lexLe` is total. -/
theorem lexLe_total : ∀ as bs : List Char,
    lexLe as bs = true ∨ lexLe bs as = true
  | [], _ => Or.inl rfl
  | _ :: _, [] => Or.inr rfl
  | a :: as, b :: bs => by
      by_cases h1 : a.toNat < b.toNat
      · exact Or.inl (by simp [lexLe, h1])
      · by_cases h2 : b.toNat < a.toNat
        · exact Or.inr (by simp [lexLe, h2])
        · rcases lexLe_total as bs with ih | ih
          · exact Or.inl (by simp [lexLe, h1, h2, ih])
          · exact Or.inr (by simp [lexLe, h1, h2, ih])

/-- `lexLe` is transitive. -/
theorem lexLe_trans : ∀ as bs cs : List Char,
    lexLe as bs = true → lexLe bs cs = true → lexLe as cs = true
  | [], _, _, _, _ => rfl
  | _ :: _, [], _, h1, _ => by simp [lexLe] at h1
  | _ :: _, _ :: _, [], _, h2 => by simp [lexLe] at h2
  | a :: as, b :: bs, c :: cs, h1, h2 => by
      simp only [lexLe] at h1 h2 ⊢
      by_cases hab : a.toNat < b.toNat
      · by_cases hbc : b.toNat < c.toNat
        · rw [if_pos (by omega)]
        · by_cases hcb : c.toNat < b.toNat
          · simp [hbc, hcb] at h2
          · rw [if_pos (by omega)]
      · by_cases hba : b.toNat < a.toNat
        · simp [hab, hba] at h1
        · have h1' : lexLe as bs = true := by simpa [hab, hba] using h1
          by_cases hbc : b.toNat < c.toNat
          · rw [if_pos (by omega)]
          · by_cases hcb : c.toNat < b.toNat
            · simp [hbc, hcb] at h2
            · have h2' : lexLe bs cs = true := by simpa [hbc, hcb] using h2
              rw [if_neg (by omega), if_neg (by omega)]
              exact lexLe_trans as bs cs h1' h2'

instance : IsTotal String idLe := ⟨fun a b => lexLe_total a.data b.data⟩

instance : IsTrans String idLe :=
  ⟨fun a b c h1 h2 => lexLe_trans a.data b.data c.data h1 h2⟩

/-- `listAssignedReviewers`: same rows, `ORDER BY reviewer_id`. -/
def listAssignedReviewers (st : State) (prID : String) : List String :=
  List.insertionSort idLe (listAssignedReviewersTx st prID)

/-- `listActiveTeamMembersTx`: builds an exclusion set from the non-empty ids
of `excludes`, then returns the ids of active members of the team that are not
in the exclusion set. -/
def listActiveTeamMembersTx (st : State) (teamName : String)
    (excludes : List String) : List String :=
  let exclusion := excludes.filter (fun e => !(e == ""))
  (st.users.filter
    (fun u => u.teamName == teamName && u.isActive
      && !(exclusion.contains u.userID))).map User.userID

/-- `GetPullRequest`: the PR row plus its reviewer ids ordered by reviewer id. -/
def getPullRequest (st : State) (prID : String) : Except AppErr PullRequest :=
  match findPR st prID with
  | none => .error (.notFound "pull request not found")
  | some r =>
      .ok ⟨r.prID, r.prName, r.authorID, r.status,
        listAssignedReviewers st prID, r.createdAt, r.mergedAt⟩

/-- Comparison used by `listTeamMembers` (`ORDER BY username`). -/
def byUsername (a b : TeamMember) : Prop :=
  lexLe a.username.data b.username.data = true

instance : DecidableRel byUsername :=
  fun a b => inferInstanceAs (Decidable (lexLe a.username.data b.username.data = true))

instance : IsTotal TeamMember byUsername :=
  ⟨fun a b => lexLe_total a.username.data b.username.data⟩

instance : IsTrans TeamMember byUsername :=
  ⟨fun _ _ _ h h' => lexLe_trans _ _ _ h h'⟩

/-- `listTeamMembers`: `SELECT user_id, username, is_active FROM users WHERE
team_name=$1 ORDER BY username`. -/
def listTeamMembers (st : State) (teamName : String) : List TeamMember :=
  List.insertionSort byUsername
    ((st.users.filter (fun u => u.teamName == teamName)).map
      (fun u => ⟨u.userID, u.username, u.isActive⟩))

/-- `GetTeam`: `ensureTeamExists` then the roster. -/
def getTeam (st : State) (teamName : String) : Except AppErr Team :=
  if st.teams.contains teamName then
    .ok ⟨teamName, listTeamMembers st teamName⟩
  else
    .error (.notFound "team not found")

/-- The member upsert of `CreateTeam`: `INSERT INTO users ... ON CONFLICT
(user_id) DO UPDATE SET username, team_name, is_active, updated_at = NOW()`. -/
def upsertUser (users : List User) (m : TeamMember) (teamName : String)
    (now : Nat) : List User :=
  if users.any (fun u => u.userID == m.userID) then
    users.map (fun u =>
      if u.userID == m.userID then ⟨m.userID, m.username, teamName, m.isActive, now⟩
      else u)
  else
    users ++ [⟨m.userID, m.username, teamName, m.isActive, now⟩]

/-- `CreateTeam`: inside one transaction, check the name, insert the team row,
upsert every member, commit; then read the team back. -/
def createTeam (st : State) (team : Team) : State × Except AppErr Team :=
  if st.teams.contains team.teamName then
    (st, .error .teamExists)
  else
    let users1 := team.members.foldl
      (fun us m => upsertUser us m team.teamName st.now) st.users
    let st1 : State :=
      { st with teams := st.teams ++ [team.teamName], users := users1 }
    match getTeam st1 team.teamName with
    | .ok t => (st1, .ok t)
    | .error e => (st1, .error e)

/-- `SetUserActive`: `UPDATE users SET is_active=$2, updated_at=NOW() WHERE
user_id=$1 RETURNING ...`; `NotFound` when no row matches. -/
def setUserActive (st : State) (uid : String) (active : Bool) :
    State × Except AppErr User :=
  match findUser st uid with
  | none => (st, .error (.notFound "user not found"))
  | some u =>
      ({ st with users := st.users.map (fun v =>
          if v.userID == uid then
            { v with isActive := active, updatedAt := st.now }
          else v) },
       .ok { u with isActive := active, updatedAt := st.now })

/-- One `INSERT INTO pull_request_reviewers(pull_request_id, reviewer_id)`:
fails (unique-key or foreign-key violation) when the pair already exists, the
pull request is unknown, or the reviewer is not a known user. -/
def insertReviewerRow (users : List User) (prRows : List PRRow)
    (rs : List (String × String)) (prID rid : String) :
    Option (List (String × String)) :=
  if rs.contains (prID, rid) then none
  else if !(prRows.any (fun r => r.prID == prID)) then none
  else if !(users.any (fun u => u.userID == rid)) then none
  else some (rs ++ [(prID, rid)])

/-- The reviewer-insert loop of `CreatePullRequest`. -/
def insertReviewers (users : List User) (prRows : List PRRow)
    (rs : List (String × String)) (prID : String) :
    List String → Option (List (String × String))
  | [] => some rs
  | rid :: rest =>
      match insertReviewerRow users prRows rs prID rid with
      | none => none
      | some rs1 => insertReviewers users prRows rs1 prID rest

/-- `service.CreatePullRequestInput`. -/
structure CreatePullRequestInput where
  pullRequestID : String
  pullRequestName : String
  authorID : String
deriving DecidableEq

/-- `CreatePullRequest`: inside one transaction, resolve the author's team,
insert the PR row, compute the candidate pool (active members of the author's
team excluding the author), persist whatever the pick function returns,
commit; then read the PR back. -/
def createPullRequest (st : State) (input : CreatePullRequestInput)
    (pick : List String → Int → List String) :
    State × Except AppErr PullRequest :=
  match findUser st input.authorID with
  | none => (st, .error (.notFound "author not found"))
  | some author =>
      if st.prs.any (fun r => r.prID == input.pullRequestID) then
        (st, .error .prExists)
      else
        let newRow : PRRow :=
          ⟨input.pullRequestID, input.pullRequestName, input.authorID,
            .opened, st.now, none⟩
        let prs1 := st.prs ++ [newRow]
        let candidates :=
          listActiveTeamMembersTx st author.teamName [input.authorID]
        let chosen := pick candidates 2
        match insertReviewers st.users prs1 st.reviewers input.pullRequestID chosen with
        | none => (st, .error (.internal "insert reviewer failed"))
        | some rs1 =>
            let st1 : State := { st with prs := prs1, reviewers := rs1 }
            match getPullRequest st1 input.pullRequestID with
            | .ok pr => (st1, .ok pr)
            | .error e => (st1, .error e)

/-- `MergePullRequest`: `UPDATE pull_requests SET status='MERGED', merged_at =
COALESCE(merged_at, NOW()) WHERE pull_request_id=$1 RETURNING ...`, then the
reviewer list. -/
def mergePullRequest (st : State) (prID : String) :
    State × Except AppErr PullRequest :=
  match findPR st prID with
  | none => (st, .error (.notFound "pull request not found"))
  | some r =>
      let st1 : State :=
        { st with prs := st.prs.map (fun x =>
            if x.prID == prID then
              { x with status := .merged, mergedAt := some (x.mergedAt.getD st.now) }
            else x) }
      (st1,
        .ok ⟨r.prID, r.prName, r.authorID, .merged,
          listAssignedReviewers st1 prID, r.createdAt,
          some (r.mergedAt.getD st.now)⟩)

/-- `ReassignReviewer` (failure-free storage): the transactional state machine
of `store.go` lines 169-240.  Every error branch before `Commit` returns the
original state (rollback); the success branch commits the delete+insert and
reads the PR back. -/
def reassignReviewer (st : State) (prID oldUserID : String)
    (pick : List String → Option String) :
    State × Except AppErr (PullRequest × String) :=
  match findPR st prID with
  | none => (st, .error (.notFound "pull request not found"))
  | some r =>
      if r.status == .merged then (st, .error .prMerged)
      else
        match findUser st oldUserID with
        | none => (st, .error (.notFound "reviewer not found"))
        | some oldUser =>
            if !(st.reviewers.contains (prID, oldUserID)) then
              (st, .error .notAssigned)
            else
              let assigned := listAssignedReviewersTx st prID
              let candidates :=
                listActiveTeamMembersTx st oldUser.teamName (oldUserID :: assigned)
              match pick candidates with
              | none => (st, .error .noCandidate)
              | some chosen =>
                  let rs1 := st.reviewers.filter
                    (fun p => !(p.1 == prID && p.2 == oldUserID))
                  match insertReviewerRow st.users st.prs rs1 prID chosen with
                  | none => (st, .error (.internal "insert reviewer failed"))
                  | some rs2 =>
                      let st1 : State := { st with reviewers := rs2 }
                      match getPullRequest st1 prID with
                      | .ok pr => (st1, .ok (pr, chosen))
                      | .error e => (st1, .error e)

/-- The mutation-and-read-back tail of `ReassignReviewer` (delete, insert,
commit, post-commit `GetPullRequest`) with injectable storage failures:
`fail k = true` means the k-th database operation of the call fails
(connection error).  Steps 6 `DELETE`, 7 `INSERT`, 8 `Commit`, 9 and 10 the
two post-commit reads of `GetPullRequest`.  A failure at 6-8 aborts the
transaction and the deferred rollback discards every buffered write, so the
original state is returned; a failure at 9 or 10 happens after `Commit`, so
the mutated state is returned together with the error. -/
def reassignFinishDb (fail : Nat → Bool) (st : State)
    (prID oldUserID chosen : String) :
    State × Except AppErr (PullRequest × String) :=
  if fail 6 then (st, .error (.internal "exec failed")) else
  let rs1 := st.reviewers.filter (fun p => !(p.1 == prID && p.2 == oldUserID))
  if fail 7 then (st, .error (.internal "exec failed")) else
  match insertReviewerRow st.users st.prs rs1 prID chosen with
  | none => (st, .error (.internal "insert reviewer failed"))
  | some rs2 =>
      if fail 8 then (st, .error (.internal "commit failed")) else
      let st1 : State := { st with reviewers := rs2 }
      if fail 9 then (st1, .error (.internal "query failed")) else
      match getPullRequest st1 prID with
      | .ok pr =>
          if fail 10 then (st1, .error (.internal "query failed")) else
          (st1, .ok (pr, chosen))
      | .error e => (st1, .error e)

/-- `ReassignReviewer` with injectable storage failures.  Step numbering
follows the source: 0 `BeginTx`, 1 status `SELECT ... FOR UPDATE`,
2 reviewer-team `SELECT`, 3 assignment-check `SELECT`, 4 assigned-reviewers
`SELECT`, 5 candidates `SELECT`, then `reassignFinishDb` for steps 6-10. -/
def reassignReviewerDb (fail : Nat → Bool) (st : State) (prID oldUserID : String)
    (pick : List String → Option String) :
    State × Except AppErr (PullRequest × String) :=
  if fail 0 then (st, .error (.internal "begin tx failed")) else
  if fail 1 then (st, .error (.internal "query failed")) else
  match findPR st prID with
  | none => (st, .error (.notFound "pull request not found"))
  | some r =>
      if r.status == .merged then (st, .error .prMerged)
      else
        if fail 2 then (st, .error (.internal "query failed")) else
        match findUser st oldUserID with
        | none => (st, .error (.notFound "reviewer not found"))
        | some oldUser =>
            if fail 3 then (st, .error (.internal "query failed")) else
            if !(st.reviewers.contains (prID, oldUserID)) then
              (st, .error .notAssigned)
            else
              if fail 4 then (st, .error (.internal "query failed")) else
              let assigned := listAssignedReviewersTx st prID
              if fail 5 then (st, .error (.internal "query failed")) else
              let candidates :=
                listActiveTeamMembersTx st oldUser.teamName (oldUserID :: assigned)
              match pick candidates with
              | none => (st, .error .noCandidate)
              | some chosen => reassignFinishDb fail st prID oldUserID chosen

/-- Comparison used by `GetUserReviews` (`ORDER BY pr.created_at DESC`). -/
def byCreatedDesc (a b : PRRow) : Prop := b.createdAt ≤ a.createdAt

instance : DecidableRel byCreatedDesc :=
  fun a b => inferInstanceAs (Decidable (b.createdAt ≤ a.createdAt))

instance : IsTotal PRRow byCreatedDesc :=
  ⟨fun a b => (le_total b.createdAt a.createdAt)⟩

instance : IsTrans PRRow byCreatedDesc :=
  ⟨fun _ _ _ h h' => le_trans h' h⟩

/-- The joined, ordered rows of `GetUserReviews`: `pull_request_reviewers`
rows of the user joined to `pull_requests`, newest first. -/
def getUserReviewsRows (st : State) (uid : String) : List PRRow :=
  List.insertionSort byCreatedDesc
    (st.reviewers.filterMap (fun p => if p.2 == uid then findPR st p.1 else none))

/-- `GetUserReviews`. -/
def getUserReviews (st : State) (uid : String) : UserReviews :=
  ⟨uid, (getUserReviewsRows st uid).map (fun r => ⟨r.prID, r.prName, r.authorID, r.status⟩)⟩

/-- The in-place swap `copyIDs[i], copyIDs[j] = copyIDs[j], copyIDs[i]`
performed by `rand.Shuffle`'s swap callback (identity when an index is out of
range, which never happens in the source loop). -/
def listSwap (l : List α) (i j : Nat) : List α :=
  match l[i]?, l[j]? with
  | some a, some b => (l.set i b).set j a
  | _, _ => l

/-- The Fisher-Yates loop of `rand.Shuffle`: for `i = n-1` down to `1`,
draw `j` uniformly in `[0, i]` (the oracle value reduced `% (i+1)`) and swap
positions `i` and `j`. -/
def shuffleIter (o : Nat → Nat) : List α → Nat → List α
  | l, 0 => l
  | l, i + 1 => shuffleIter o (listSwap l (i + 1) (o (i + 1) % (i + 2))) i

/-- `p.rand.Shuffle(len(copyIDs), swap)` on a list of length `n`. -/
def randShuffle (o : Nat → Nat) (l : List α) : List α :=
  shuffleIter o l (l.length - 1)

namespace RandomPicker

/-- `RandomPicker.Pick`: returns up to `limit` ids of a shuffled copy of
`ids`, together with the caller's slice after the call.  The Go code shuffles
a fresh copy (`copyIDs := append([]string(nil), ids...)`), so the caller's
slice is handed back unchanged; serialization of the shared generator by the
mutex is invisible in this single-call model. -/
def pick (o : Nat → Nat) (ids : List String) (limit : Int) :
    List String × List String :=
  if limit ≤ 0 ∨ ids = [] then ([], ids)
  else
    let copyIDs := randShuffle o ids
    (if (copyIDs.length : Int) > limit then copyIDs.take limit.toNat else copyIDs,
     ids)

/-- `RandomPicker.PickOne`: `Pick(ids, 1)`, `found = false` iff empty. -/
def pickOne (o : Nat → Nat) (ids : List String) : Option String :=
  match (pick o ids 1).1 with
  | [] => none
  | x :: _ => some x

end RandomPicker

namespace Service

/-- `Service.CreatePullRequest`: the orchestrator passes the store
`func(ids, limit) { return s.picker.Pick(ids, limit) }` with `limit = 2`. -/
def createPullRequest (o : Nat → Nat) (st : State)
    (input : CreatePullRequestInput) : State × Except AppErr PullRequest :=
  PRReviewer.createPullRequest st input
    (fun ids limit => (RandomPicker.pick o ids limit).1)

/-- `Service.ReassignReviewer`: the orchestrator passes `s.picker.PickOne`. -/
def reassignReviewer (o : Nat → Nat) (st : State) (prID oldUserID : String) :
    State × Except AppErr (PullRequest × String) :=
  PRReviewer.reassignReviewer st prID oldUserID (RandomPicker.pickOne o)

end Service

/-- Well-formed database state: the uniqueness and foreign-key constraints of
`001_init.sql` (primary keys on `user_id`, `pull_request_id` and the
`(pull_request_id, reviewer_id)` pair; reviewer rows reference existing pull
requests and users), plus non-emptiness of ids, which the HTTP boundary
enforces (`binding:"required"` and the explicit member-field checks) before
any id reaches the store. -/
def State.WF (st : State) : Prop :=
  (st.users.map User.userID).Nodup ∧
  (st.prs.map PRRow.prID).Nodup ∧
  st.reviewers.Nodup ∧
  (∀ p ∈ st.reviewers, p.1 ∈ st.prs.map PRRow.prID) ∧
  (∀ p ∈ st.reviewers, p.2 ∈ st.users.map User.userID) ∧
  (∀ u ∈ st.users, u.userID ≠ "") ∧
  (∀ r ∈ st.prs, r.prID ≠ "")

instance (st : State) : Decidable st.WF := by
  unfold State.WF
  infer_instance

/-- Status of a pull request in a state, as stored. -/
def statusOf (st : State) (prID : String) : Option Status :=
  (findPR st prID).map PRRow.status

instance {ε α : Type} [DecidableEq ε] [DecidableEq α] :
    DecidableEq (Except ε α) := fun a b =>
  match a, b with
  | .ok x, .ok y => decidable_of_iff (x = y) (by simp)
  | .error x, .error y => decidable_of_iff (x = y) (by simp)
  | .ok _, .error _ => isFalse (by simp)
  | .error _, .ok _ => isFalse (by simp)

/-- A small concrete database: one team `t` with two active members, the
author `a` and the reviewer `r1`; one open pull request `p` authored by `a`
and reviewed by `r1`. -/
def exSt : State :=
  { teams := ["t"],
    users := [⟨"a", "Alice", "t", true, 0⟩, ⟨"r1", "Ruth", "t", true, 0⟩],
    prs := [⟨"p", "Fix", "a", .opened, 0, none⟩],
    reviewers := [("p", "r1")],
    now := 1 }

/-- The reassignment candidate pool as the claim words it: active members of
the old reviewer's team minus the old reviewer and all currently assigned
reviewers of the pull request. -/
def specReassignPool (st : State) (prID oldUserID teamName : String) :
    List String :=
  (st.users.filter (fun u => u.teamName == teamName && u.isActive
    && !(u.userID == oldUserID)
    && !((listAssignedReviewersTx st prID).contains u.userID))).map User.userID

/-! ### Permutation facts about the shuffle and the picker -/

/-- Moving the element at position `k` to the front while writing `x` at
position `k` is a permutation of putting `x` at the front. -/
theorem cons_set_perm {α : Type} (x : α) : ∀ (xs : List α) (k : Nat) (b : α),
    xs[k]? = some b → (b :: xs.set k x).Perm (x :: xs)
  | [], k, _, h => by simp at h
  | y :: t, 0, b, h => by
      simp only [List.getElem?_cons_zero, Option.some.injEq] at h
      subst h
      simpa using List.Perm.swap x y t
  | y :: t, k + 1, b, h => by
      simp only [List.getElem?_cons_succ] at h
      have ih := cons_set_perm x t k b h
      have h1 : (y :: t).set (k + 1) x = y :: t.set k x := by simp
      rw [h1]
      exact (List.Perm.swap y b _).trans ((ih.cons y).trans (List.Perm.swap x y t))

/-- Writing the fetched values crosswise at two positions permutes the list. -/
theorem set_set_perm {α : Type} : ∀ (l : List α) (i j : Nat) (a b : α),
    l[i]? = some a → l[j]? = some b → ((l.set i b).set j a).Perm l
  | [], _, _, _, _, ha, _ => by simp at ha
  | x :: t, 0, 0, a, b, ha, hb => by
      simp only [List.getElem?_cons_zero, Option.some.injEq] at ha hb
      subst ha
      simp
  | x :: t, 0, j + 1, a, b, ha, hb => by
      simp only [List.getElem?_cons_zero, List.getElem?_cons_succ,
        Option.some.injEq] at ha hb
      subst ha
      simpa using cons_set_perm x t j b hb
  | x :: t, i + 1, 0, a, b, ha, hb => by
      simp only [List.getElem?_cons_zero, List.getElem?_cons_succ,
        Option.some.injEq] at ha hb
      subst hb
      simpa using cons_set_perm x t i a ha
  | x :: t, i + 1, j + 1, a, b, ha, hb => by
      simp only [List.getElem?_cons_succ] at ha hb
      simpa using (set_set_perm t i j a b ha hb).cons x

/-- A swap step permutes the list. -/
theorem listSwap_perm {α : Type} (l : List α) (i j : Nat) :
    (listSwap l i j).Perm l := by
  unfold listSwap
  cases hi : l[i]? with
  | none => exact List.Perm.refl l
  | some a =>
      cases hj : l[j]? with
      | none => exact List.Perm.refl l
      | some b => exact set_set_perm l i j a b hi hj

/-- Every run of the Fisher-Yates loop permutes the list. -/
theorem shuffleIter_perm {α : Type} (o : Nat → Nat) :
    ∀ (l : List α) (n : Nat), (shuffleIter o l n).Perm l
  | _, 0 => List.Perm.refl _
  | l, n + 1 =>
      (shuffleIter_perm o _ n).trans (listSwap_perm l (n + 1) _)

/-- `rand.Shuffle` permutes the list. -/
theorem randShuffle_perm {α : Type} (o : Nat → Nat) (l : List α) :
    (randShuffle o l).Perm l :=
  shuffleIter_perm o l (l.length - 1)

namespace RandomPicker

/-- `Pick` hands the caller's slice back unchanged. -/
theorem pick_snd (o : Nat → Nat) (ids : List String) (limit : Int) :
    (pick o ids limit).2 = ids := by
  unfold pick
  split <;> rfl

/-- Everything `Pick` returns occurs in the input. -/
theorem pick_mem (o : Nat → Nat) (ids : List String) (limit : Int)
    {x : String} (h : x ∈ (pick o ids limit).1) : x ∈ ids := by
  unfold pick at h
  split at h
  · simp at h
  · have hperm := randShuffle_perm o ids
    dsimp only at h
    split at h
    · exact hperm.mem_iff.mp (List.mem_of_mem_take h)
    · exact hperm.mem_iff.mp h

/-- `Pick` returns the empty sequence when the limit is non-positive or the
input is empty. -/
theorem pick_eq_nil (o : Nat → Nat) (ids : List String) (limit : Int)
    (h : limit ≤ 0 ∨ ids = []) : (pick o ids limit).1 = [] := by
  unfold pick
  rw [if_pos h]

/-- On a non-empty input with positive limit, `Pick` returns exactly
`min limit |ids|` elements. -/
theorem pick_length (o : Nat → Nat) (ids : List String) (limit : Int)
    (h1 : 1 ≤ limit) (h2 : ids ≠ []) :
    (pick o ids limit).1.length = min limit.toNat ids.length := by
  unfold pick
  rw [if_neg (by push_neg; exact ⟨by omega, h2⟩)]
  have hlen : (randShuffle o ids).length = ids.length :=
    (randShuffle_perm o ids).length_eq
  dsimp only
  split
  · rename_i hgt
    rw [List.length_take, hlen]
  · rename_i hle
    rw [hlen]
    omega

/-- `Pick` preserves the absence of duplicates. -/
theorem pick_nodup (o : Nat → Nat) (ids : List String) (limit : Int)
    (h : ids.Nodup) : (pick o ids limit).1.Nodup := by
  unfold pick
  split
  · exact List.nodup_nil
  · have hnd : (randShuffle o ids).Nodup :=
      ((randShuffle_perm o ids).nodup_iff).mpr h
    dsimp only
    split
    · exact hnd.sublist (List.take_sublist _ _)
    · exact hnd

/-- `PickOne` finds nothing exactly on the empty input. -/
theorem pickOne_eq_none_iff (o : Nat → Nat) (ids : List String) :
    pickOne o ids = none ↔ ids = [] := by
  unfold pickOne
  constructor
  · intro h
    by_contra hne
    have hl := pick_length o ids 1 le_rfl hne
    have : ids.length ≠ 0 := fun h0 => hne (List.eq_nil_of_length_eq_zero h0)
    cases hp : (pick o ids 1).1 with
    | nil => rw [hp] at hl; simp at hl; omega
    | cons a t => rw [hp] at h; simp at h
  · intro h
    rw [pick_eq_nil o ids 1 (Or.inr h)]

/-- Whatever `PickOne` returns occurs in the input. -/
theorem pickOne_mem (o : Nat → Nat) (ids : List String) {x : String}
    (h : pickOne o ids = some x) : x ∈ ids := by
  unfold pickOne at h
  cases hp : (pick o ids 1).1 with
  | nil => rw [hp] at h; simp at h
  | cons a t =>
      rw [hp] at h
      simp only [Option.some.injEq] at h
      subst h
      exact pick_mem o ids 1 (hp ▸ List.mem_cons_self a t)

end RandomPicker

/-! ### Helper lemmas about the relational primitives -/

/-- A successful run of the reviewer-insert loop appends exactly the picked
pairs, in order. -/
theorem insertReviewers_ok (users : List User) (prRows : List PRRow) :
    ∀ (l : List String) (rs rs' : List (String × String)) (prID : String),
    insertReviewers users prRows rs prID l = some rs' →
    rs' = rs ++ l.map (fun x => (prID, x))
  | [], rs, rs', prID, h => by
      unfold insertReviewers at h
      simp only [Option.some.injEq] at h
      simp [h.symm]
  | rid :: rest, rs, rs', prID, h => by
      unfold insertReviewers at h
      cases hz : insertReviewerRow users prRows rs prID rid with
      | none => rw [hz] at h; exact absurd h (by simp)
      | some rs1 =>
          rw [hz] at h
          have h2 : rs1 = rs ++ [(prID, rid)] := by
            unfold insertReviewerRow at hz
            split at hz
            · exact absurd hz (by simp)
            · split at hz
              · exact absurd hz (by simp)
              · split at hz
                · exact absurd hz (by simp)
                · simp only [Option.some.injEq] at hz
                  exact hz.symm
          have h3 := insertReviewers_ok users prRows rest rs1 rs' prID h
          rw [h3, h2]
          simp

/-- The reviewer rows of a pull request, after appending that PR's fresh
pairs, are the old rows followed by the appended reviewer ids. -/
theorem rows_filter_append (rs : List (String × String)) (prID : String)
    (l : List String) :
    (((rs ++ l.map (fun x => (prID, x))).filter (fun p => p.1 == prID)).map
        Prod.snd)
      = ((rs.filter (fun p => p.1 == prID)).map Prod.snd) ++ l := by
  rw [List.filter_append, List.map_append]
  congr 1
  induction l with
  | nil => rfl
  | cons x t ih => simpa using ih

/-- In a well-formed state, a pull request that is not in `pull_requests` has
no reviewer rows. -/
theorem rows_eq_nil_of_not_mem (st : State) (prID : String)
    (hfk : ∀ p ∈ st.reviewers, p.1 ∈ st.prs.map PRRow.prID)
    (hnot : prID ∉ st.prs.map PRRow.prID) :
    st.reviewers.filter (fun p => p.1 == prID) = [] := by
  refine List.filter_eq_nil_iff.mpr ?_
  intro p hp
  simp only [beq_iff_eq]
  intro hkey
  exact hnot (hkey ▸ hfk p hp)

/-- `find?` on a keyed row list with distinct keys returns the row itself. -/
theorem find?_key_of_mem {l : List PRRow}
    (hnd : (l.map PRRow.prID).Nodup) {r : PRRow} (hr : r ∈ l) :
    l.find? (fun x => x.prID == r.prID) = some r := by
  induction l with
  | nil => simp at hr
  | cons a t ih =>
      simp only [List.map_cons, List.nodup_cons] at hnd
      rcases List.mem_cons.mp hr with h | h
      · subst h
        simp [List.find?]
      · have hne : (a.prID == r.prID) = false := by
          simp only [beq_eq_false_iff_ne, ne_eq]
          intro hk
          exact hnd.1 (hk ▸ List.mem_map_of_mem PRRow.prID h)
        simp only [List.find?, hne]
        exact ih hnd.2 h

/-- Membership in the active-members query: a returned id belongs to an
active user of the team. -/
theorem mem_listActiveTeamMembersTx {st : State} {t x : String}
    {ex : List String} (h : x ∈ listActiveTeamMembersTx st t ex) :
    ∃ u ∈ st.users, u.userID = x ∧ u.teamName = t ∧ u.isActive = true := by
  unfold listActiveTeamMembersTx at h
  rcases List.mem_map.mp h with ⟨u, hu, hx⟩
  rcases List.mem_filter.mp hu with ⟨hmem, hcond⟩
  simp only [Bool.and_eq_true, beq_iff_eq] at hcond
  exact ⟨u, hmem, hx, hcond.1.1, hcond.1.2⟩

/-- A non-empty excluded id never appears in the active-members query. -/
theorem not_mem_listActiveTeamMembersTx (st : State) (t : String)
    (ex : List String) {x : String} (hx : x ∈ ex) (hne : x ≠ "") :
    x ∉ listActiveTeamMembersTx st t ex := by
  intro h
  unfold listActiveTeamMembersTx at h
  rcases List.mem_map.mp h with ⟨u, hu, hxu⟩
  rcases List.mem_filter.mp hu with ⟨_, hcond⟩
  simp only [Bool.and_eq_true, Bool.not_eq_true'] at hcond
  have hmemex : u.userID ∈ ex.filter (fun e => !(e == "")) := by
    rw [hxu]
    exact List.mem_filter.mpr ⟨hx, by simpa using hne⟩
  have hc : (ex.filter (fun e => !(e == ""))).contains u.userID = true :=
    List.elem_iff.mpr hmemex
  rw [hcond.2] at hc
  exact Bool.false_ne_true hc

/-- When every excluded id is non-empty, the exclusion filter is the
identity, and membership is plain list exclusion. -/
theorem listActiveTeamMembersTx_of_nonempty_ids (st : State) (t : String)
    (ex : List String) (hex : ∀ x ∈ ex, x ≠ "") :
    listActiveTeamMembersTx st t ex =
      (st.users.filter (fun u => u.teamName == t && u.isActive
        && !(ex.contains u.userID))).map User.userID := by
  unfold listActiveTeamMembersTx
  have : ex.filter (fun e => !(e == "")) = ex :=
    List.filter_eq_self.mpr (fun a ha => by simpa using hex a ha)
  rw [this]

/-- The ids returned by the active-members query have no duplicates when the
user table's primary key holds. -/
theorem listActiveTeamMembersTx_nodup (st : State) (t : String)
    (ex : List String) (hnd : (st.users.map User.userID).Nodup) :
    (listActiveTeamMembersTx st t ex).Nodup := by
  unfold listActiveTeamMembersTx
  exact (List.Sublist.map User.userID (List.filter_sublist st.users)).nodup hnd

/-! ### Characterization of the store operations -/

/-- What a successful `CreatePullRequest` does to the state and returns. -/
theorem createPullRequest_ok (st : State) (input : CreatePullRequestInput)
    (pick : List String → Int → List String) (st' : State) (pr : PullRequest)
    (h : createPullRequest st input pick = (st', .ok pr)) :
    ∃ author, findUser st input.authorID = some author ∧
      input.pullRequestID ∉ st.prs.map PRRow.prID ∧
      st' = { st with
        prs := st.prs ++ [⟨input.pullRequestID, input.pullRequestName,
          input.authorID, .opened, st.now, none⟩],
        reviewers := st.reviewers ++
          (pick (listActiveTeamMembersTx st author.teamName [input.authorID]) 2).map
            (fun x => (input.pullRequestID, x)) } ∧
      pr = ⟨input.pullRequestID, input.pullRequestName, input.authorID, .opened,
        listAssignedReviewers st' input.pullRequestID, st.now, none⟩ := by
  unfold createPullRequest at h
  split at h
  · exact absurd h (by simp)
  · rename_i author hu
    split at h
    · exact absurd h (by simp)
    · rename_i hany
      dsimp only at h
      split at h
      · exact absurd h (by simp)
      · rename_i rs1 hins
        split at h
        · rename_i pr0 hget
          have hnotmem : input.pullRequestID ∉ st.prs.map PRRow.prID := by
            intro hmem
            rcases List.mem_map.mp hmem with ⟨r, hr, hid⟩
            have := List.any_eq_false.mp (Bool.not_eq_true _ ▸ hany) r hr
            simp only [beq_iff_eq] at this
            exact this hid
          have hrs1 := insertReviewers_ok st.users _ _ _ _ _ hins
          have hfind :
              findPR { st with
                prs := st.prs ++ [⟨input.pullRequestID, input.pullRequestName,
                  input.authorID, .opened, st.now, none⟩],
                reviewers := rs1 } input.pullRequestID =
              some ⟨input.pullRequestID, input.pullRequestName, input.authorID,
                .opened, st.now, none⟩ := by
            unfold findPR
            dsimp only
            rw [List.find?_append]
            have h1 : st.prs.find? (fun r => r.prID == input.pullRequestID) = none := by
              refine List.find?_eq_none.mpr ?_
              intro r hr
              have h2 := List.any_eq_false.mp (Bool.not_eq_true _ ▸ hany) r hr
              simp only [beq_eq_false_iff_ne, ne_eq] at h2
              simpa using h2
            rw [h1]
            simp [List.find?]
          unfold getPullRequest at hget
          rw [hfind] at hget
          simp only [Except.ok.injEq] at hget
          simp only [Prod.mk.injEq, Except.ok.injEq] at h
          refine ⟨author, hu, hnotmem, ?_, ?_⟩
          · rw [← h.1, hrs1]
          · rw [← h.2, ← hget]
            rw [← h.1, hrs1]
        · exact absurd h (by simp)

/-- A successful single reviewer insert appends the pair. -/
theorem insertReviewerRow_ok (users : List User) (prRows : List PRRow)
    (rs rs' : List (String × String)) (prID rid : String)
    (h : insertReviewerRow users prRows rs prID rid = some rs') :
    rs' = rs ++ [(prID, rid)] := by
  unfold insertReviewerRow at h
  split at h
  · exact absurd h (by simp)
  · split at h
    · exact absurd h (by simp)
    · split at h
      · exact absurd h (by simp)
      · simp only [Option.some.injEq] at h
        exact h.symm

/-- What a successful `ReassignReviewer` checks, does and returns. -/
theorem reassignReviewer_ok (st : State) (prID oldUserID : String)
    (pick : List String → Option String) (st' : State) (pr : PullRequest)
    (chosen : String)
    (h : reassignReviewer st prID oldUserID pick = (st', .ok (pr, chosen))) :
    ∃ r oldUser, findPR st prID = some r ∧ (r.status == .merged) = false ∧
      findUser st oldUserID = some oldUser ∧
      st.reviewers.contains (prID, oldUserID) = true ∧
      pick (listActiveTeamMembersTx st oldUser.teamName
        (oldUserID :: listAssignedReviewersTx st prID)) = some chosen ∧
      st' = { st with reviewers :=
        (st.reviewers.filter (fun p => !(p.1 == prID && p.2 == oldUserID)))
          ++ [(prID, chosen)] } ∧
      pr = ⟨r.prID, r.prName, r.authorID, r.status,
        listAssignedReviewers st' prID, r.createdAt, r.mergedAt⟩ := by
  unfold reassignReviewer at h
  split at h
  · exact absurd h (by simp)
  · rename_i r hr
    split at h
    · exact absurd h (by simp)
    · rename_i hmerged
      split at h
      · exact absurd h (by simp)
      · rename_i oldUser hou
        split at h
        · exact absurd h (by simp)
        · rename_i hcont
          dsimp only at h
          split at h
          · exact absurd h (by simp)
          · rename_i chosen0 hpick
            split at h
            · exact absurd h (by simp)
            · rename_i rs2 hins
              have hrs2 := insertReviewerRow_ok _ _ _ _ _ _ hins
              split at h
              · rename_i pr0 hget
                have hfind : findPR { st with reviewers := rs2 } prID = some r := hr
                unfold getPullRequest at hget
                rw [hfind] at hget
                simp only [Except.ok.injEq] at hget
                simp only [Prod.mk.injEq, Except.ok.injEq] at h
                have hst := h.1
                have hpr := h.2.1
                have hch := h.2.2
                subst hch
                subst hpr
                subst hst
                refine ⟨r, oldUser, hr, Bool.not_eq_true _ ▸ hmerged, hou,
                  ?_, hpick, ?_, ?_⟩
                · have := Bool.not_eq_true _ ▸ hcont
                  simpa using this
                · rw [hrs2]
                · exact hget.symm
              · exact absurd h (by simp)

/-- Every run of `ReassignReviewer` either fails leaving the state untouched
(the transaction rolls back before `Commit`) or succeeds. -/
theorem reassignReviewer_cases (st : State) (prID oldUserID : String)
    (pick : List String → Option String) :
    ((reassignReviewer st prID oldUserID pick).1 = st ∧
      ∃ e, (reassignReviewer st prID oldUserID pick).2 = .error e) ∨
    (∃ pr chosen,
      (reassignReviewer st prID oldUserID pick).2 = .ok (pr, chosen)) := by
  unfold reassignReviewer
  split
  · exact Or.inl ⟨rfl, _, rfl⟩
  · rename_i r hr
    split
    · exact Or.inl ⟨rfl, _, rfl⟩
    · split
      · exact Or.inl ⟨rfl, _, rfl⟩
      · rename_i oldUser hou
        split
        · exact Or.inl ⟨rfl, _, rfl⟩
        · dsimp only
          split
          · exact Or.inl ⟨rfl, _, rfl⟩
          · rename_i chosen hpick
            split
            · exact Or.inl ⟨rfl, _, rfl⟩
            · rename_i rs2 hins
              split
              · rename_i pr0 hget
                exact Or.inr ⟨pr0, chosen, rfl⟩
              · rename_i e hget
                exfalso
                have hfind : findPR { st with reviewers := rs2 } prID = some r := hr
                unfold getPullRequest at hget
                rw [hfind] at hget
                exact absurd hget (by simp)

/-- With a failure-free storage layer the commit tail reduces to the plain
delete-insert-commit-read sequence. -/
theorem reassignFinishDb_noFail (st : State) (prID oldUserID chosen : String) :
    reassignFinishDb (fun _ => false) st prID oldUserID chosen =
      (match insertReviewerRow st.users st.prs
          (st.reviewers.filter (fun p => !(p.1 == prID && p.2 == oldUserID)))
          prID chosen with
       | none => (st, .error (.internal "insert reviewer failed"))
       | some rs2 =>
          match getPullRequest { st with reviewers := rs2 } prID with
          | .ok pr => ({ st with reviewers := rs2 }, .ok (pr, chosen))
          | .error e => ({ st with reviewers := rs2 }, .error e)) := by
  unfold reassignFinishDb
  simp only [Bool.false_eq_true, if_false]

/-- With a failure-free storage layer the injectable model coincides with the
plain one. -/
theorem reassignReviewerDb_noFail (st : State) (prID oldUserID : String)
    (pick : List String → Option String) :
    reassignReviewerDb (fun _ => false) st prID oldUserID pick =
      reassignReviewer st prID oldUserID pick := by
  unfold reassignReviewerDb reassignReviewer
  simp only [Bool.false_eq_true, if_false, reassignFinishDb_noFail]

/-- The commit tail leaves the state either untouched (abort before `Commit`
rolls back) or with the complete committed replacement; in the committed case
the outcome is a success whenever no storage failure hits the post-commit
read-back of an existing pull request. -/
theorem reassignFinishDb_cases (fail : Nat → Bool) (st : State)
    (prID oldUserID chosen : String) :
    ((reassignFinishDb fail st prID oldUserID chosen).1 = st) ∨
    ((reassignFinishDb fail st prID oldUserID chosen).1 =
      { st with reviewers :=
        (st.reviewers.filter (fun p => !(p.1 == prID && p.2 == oldUserID)))
          ++ [(prID, chosen)] } ∧
     (fail 9 = false → fail 10 = false → ∀ r, findPR st prID = some r →
      ∃ pr, (reassignFinishDb fail st prID oldUserID chosen).2 =
        .ok (pr, chosen))) := by
  unfold reassignFinishDb
  split
  · exact Or.inl rfl
  · dsimp only
    split
    · exact Or.inl rfl
    · split
      · exact Or.inl rfl
      · rename_i rs2 hins
        have hrs2 := insertReviewerRow_ok _ _ _ _ _ _ hins
        subst hrs2
        split
        · exact Or.inl rfl
        · split
          · rename_i h9
            refine Or.inr ⟨rfl, ?_⟩
            intro hf9 _ r _
            rw [h9] at hf9
            simp at hf9
          · split
            · rename_i pr0 hget
              split
              · rename_i h10
                refine Or.inr ⟨rfl, ?_⟩
                intro _ hf10 r _
                rw [h10] at hf10
                simp at hf10
              · exact Or.inr ⟨rfl, fun _ _ r _ => ⟨pr0, rfl⟩⟩
            · rename_i e hget
              refine Or.inr ⟨rfl, ?_⟩
              intro _ _ r hr
              exfalso
              have hfind : findPR { st with reviewers :=
                  (st.reviewers.filter
                    (fun p => !(p.1 == prID && p.2 == oldUserID)))
                    ++ [(prID, chosen)] } prID = some r := hr
              unfold getPullRequest at hget
              rw [hfind] at hget
              exact absurd hget (by simp)

/-- Head reduction of `ReassignReviewer` under injectable storage failures:
either some check (or injected failure) aborts before any mutation, with the
transaction rolled back, or all checks pass and the call reduces to the
commit tail. -/
theorem reassignReviewerDb_head (fail : Nat → Bool) (st : State)
    (prID oldUserID : String) (pick : List String → Option String) :
    (∃ e, reassignReviewerDb fail st prID oldUserID pick = (st, .error e)) ∨
    (∃ r oldUser chosen, findPR st prID = some r ∧
      findUser st oldUserID = some oldUser ∧
      pick (listActiveTeamMembersTx st oldUser.teamName
        (oldUserID :: listAssignedReviewersTx st prID)) = some chosen ∧
      reassignReviewerDb fail st prID oldUserID pick =
        reassignFinishDb fail st prID oldUserID chosen) := by
  unfold reassignReviewerDb
  split
  · exact Or.inl ⟨_, rfl⟩
  · split
    · exact Or.inl ⟨_, rfl⟩
    · split
      · exact Or.inl ⟨_, rfl⟩
      · rename_i r hr
        split
        · exact Or.inl ⟨_, rfl⟩
        · split
          · exact Or.inl ⟨_, rfl⟩
          · split
            · exact Or.inl ⟨_, rfl⟩
            · rename_i oldUser hou
              split
              · exact Or.inl ⟨_, rfl⟩
              · split
                · exact Or.inl ⟨_, rfl⟩
                · split
                  · exact Or.inl ⟨_, rfl⟩
                  · dsimp only
                    split
                    · exact Or.inl ⟨_, rfl⟩
                    · split
                      · exact Or.inl ⟨_, rfl⟩
                      · rename_i chosen hpick
                        exact Or.inr ⟨r, oldUser, chosen, hr, hou, hpick, rfl⟩

/-- Under injectable storage failures, every run of `ReassignReviewer` leaves
the state either untouched or with the complete committed replacement: the
old pair removed and the chosen pair inserted, atomically.  No partial
replacement is ever observable, and in the committed case the outcome is a
success whenever no storage failure hits the post-commit read-back. -/
theorem reassignReviewerDb_cases (fail : Nat → Bool) (st : State)
    (prID oldUserID : String) (pick : List String → Option String) :
    ((reassignReviewerDb fail st prID oldUserID pick).1 = st) ∨
    (∃ oldUser chosen, findUser st oldUserID = some oldUser ∧
      pick (listActiveTeamMembersTx st oldUser.teamName
        (oldUserID :: listAssignedReviewersTx st prID)) = some chosen ∧
      (reassignReviewerDb fail st prID oldUserID pick).1 =
        { st with reviewers :=
          (st.reviewers.filter (fun p => !(p.1 == prID && p.2 == oldUserID)))
            ++ [(prID, chosen)] } ∧
      (fail 9 = false → fail 10 = false →
        ∃ pr, (reassignReviewerDb fail st prID oldUserID pick).2 =
          .ok (pr, chosen))) := by
  rcases reassignReviewerDb_head fail st prID oldUserID pick with
    ⟨e, heq⟩ | ⟨r, oldUser, chosen, hr, hou, hpick, heq⟩
  · exact Or.inl (by rw [heq])
  · rcases reassignFinishDb_cases fail st prID oldUserID chosen with
      h | ⟨heq2, himp⟩
    · exact Or.inl (by rw [heq]; exact h)
    · refine Or.inr ⟨oldUser, chosen, hou, hpick, by rw [heq]; exact heq2, ?_⟩
      intro hf9 hf10
      rw [heq]
      exact himp hf9 hf10 r hr

/-- A failing `ReassignReviewer` whose storage failures (if any) do not hit
the post-commit read-back leaves the state untouched. -/
theorem reassignReviewerDb_error_rollback (fail : Nat → Bool) (st : State)
    (prID oldUserID : String) (pick : List String → Option String)
    (hf9 : fail 9 = false) (hf10 : fail 10 = false) (e : AppErr)
    (h : (reassignReviewerDb fail st prID oldUserID pick).2 = .error e) :
    (reassignReviewerDb fail st prID oldUserID pick).1 = st := by
  rcases reassignReviewerDb_cases fail st prID oldUserID pick with
    hc | ⟨u, chosen, _, _, _, himp⟩
  · exact hc
  · obtain ⟨pr, hok⟩ := himp hf9 hf10
    rw [hok] at h
    exact absurd h (by simp)

/-- `find?` by key commutes with mapping a key-preserving row function. -/
theorem find?_map_of_key_preserving (f : PRRow → PRRow)
    (hf : ∀ r, (f r).prID = r.prID) (pid : String) :
    ∀ l : List PRRow, (l.map f).find? (fun x => x.prID == pid)
      = (l.find? (fun x => x.prID == pid)).map f
  | [] => rfl
  | a :: t => by
      simp only [List.map_cons, List.find?, hf a]
      cases h : (a.prID == pid) with
      | false => exact find?_map_of_key_preserving f hf pid t
      | true => rfl

/-- `MergePullRequest` on an absent id. -/
theorem mergePullRequest_none (st : State) (prID : String)
    (h : findPR st prID = none) :
    mergePullRequest st prID = (st, .error (.notFound "pull request not found")) := by
  unfold mergePullRequest
  rw [h]

/-- `MergePullRequest` on a present id: the row is updated monotonically and
returned. -/
theorem mergePullRequest_some (st : State) (prID : String) (r : PRRow)
    (h : findPR st prID = some r) :
    mergePullRequest st prID =
      ({ st with prs := st.prs.map (fun x =>
          if x.prID == prID then
            { x with status := .merged, mergedAt := some (x.mergedAt.getD st.now) }
          else x) },
       .ok ⟨r.prID, r.prName, r.authorID, .merged,
         listAssignedReviewers
           { st with prs := st.prs.map (fun x =>
              if x.prID == prID then
                { x with status := .merged, mergedAt := some (x.mergedAt.getD st.now) }
              else x) } prID,
         r.createdAt, some (r.mergedAt.getD st.now)⟩) := by
  unfold mergePullRequest
  rw [h]

/-- `CreateTeam` never touches pull requests or reviewer rows. -/
theorem createTeam_frame (st : State) (team : Team) :
    (createTeam st team).1.prs = st.prs ∧
    (createTeam st team).1.reviewers = st.reviewers := by
  unfold createTeam
  split
  · exact ⟨rfl, rfl⟩
  · dsimp only
    split <;> exact ⟨rfl, rfl⟩

/-- `SetUserActive` never touches teams, pull requests or reviewer rows. -/
theorem setUserActive_frame (st : State) (uid : String) (b : Bool) :
    (setUserActive st uid b).1.teams = st.teams ∧
    (setUserActive st uid b).1.prs = st.prs ∧
    (setUserActive st uid b).1.reviewers = st.reviewers := by
  unfold setUserActive
  split <;> exact ⟨rfl, rfl, rfl⟩

/-- `CreatePullRequest` either leaves `pull_requests` unchanged (failure) or
appends exactly the one new `OPEN` row. -/
theorem createPullRequest_prs (st : State) (input : CreatePullRequestInput)
    (pick : List String → Int → List String) :
    (createPullRequest st input pick).1.prs = st.prs ∨
    (createPullRequest st input pick).1.prs = st.prs ++
      [⟨input.pullRequestID, input.pullRequestName, input.authorID, .opened,
        st.now, none⟩] := by
  unfold createPullRequest
  split
  · exact Or.inl rfl
  · split
    · exact Or.inl rfl
    · dsimp only
      split
      · exact Or.inl rfl
      · split <;> exact Or.inr rfl

/-- `ReassignReviewer` never touches the `pull_requests` table. -/
theorem reassignReviewer_prs (st : State) (prID oldUserID : String)
    (pick : List String → Option String) :
    (reassignReviewer st prID oldUserID pick).1.prs = st.prs := by
  unfold reassignReviewer
  split
  · rfl
  · split
    · rfl
    · split
      · rfl
      · split
        · rfl
        · dsimp only
          split
          · rfl
          · split
            · rfl
            · split <;> rfl

/-- A found user is a stored user with the looked-up id. -/
theorem findUser_some (st : State) {uid : String} {u : User}
    (h : findUser st uid = some u) : u ∈ st.users ∧ u.userID = uid := by
  unfold findUser at h
  exact ⟨List.mem_of_find?_eq_some h, by simpa using List.find?_some h⟩

/-- A found pull request is a stored row with the looked-up id. -/
theorem findPR_some (st : State) {prID : String} {r : PRRow}
    (h : findPR st prID = some r) : r ∈ st.prs ∧ r.prID = prID := by
  unfold findPR at h
  exact ⟨List.mem_of_find?_eq_some h, by simpa using List.find?_some h⟩

/-! ### Claim theorems -/

/-- C6 (counterexample): on a candidate list that itself contains a
duplicate, `Pick` returns a sequence with a repeated element even though the
limit is at least 1 and the list is non-empty, so "pairwise-distinct for
every candidate list" fails as stated. -/
theorem pick_duplicates_counterexample :
    (1 : Int) ≤ 2 ∧ (["a", "a"] : List String) ≠ [] ∧
    ¬ (RandomPicker.pick (fun _ => 0) ["a", "a"] 2).1.Nodup := by
  decide

/-- C6 (amended): for every randomness oracle, candidate list and limit,
`Pick` returns the empty sequence when the limit is non-positive or the list
is empty; otherwise it returns exactly `min limit |candidates|` elements,
each occurring in the candidate list, pairwise distinct whenever the
candidate list itself has no duplicates; and the caller's list is handed
back unchanged. -/
theorem pick_spec_amended (o : Nat → Nat) (ids : List String) (limit : Int) :
    ((limit ≤ 0 ∨ ids = []) → (RandomPicker.pick o ids limit).1 = []) ∧
    (1 ≤ limit → ids ≠ [] →
      ((RandomPicker.pick o ids limit).1.length = min limit.toNat ids.length ∧
       (∀ x ∈ (RandomPicker.pick o ids limit).1, x ∈ ids) ∧
       (ids.Nodup → (RandomPicker.pick o ids limit).1.Nodup))) ∧
    (RandomPicker.pick o ids limit).2 = ids := by
  refine ⟨RandomPicker.pick_eq_nil o ids limit, ?_, RandomPicker.pick_snd o ids limit⟩
  intro h1 h2
  exact ⟨RandomPicker.pick_length o ids limit h1 h2,
    fun x hx => RandomPicker.pick_mem o ids limit hx,
    RandomPicker.pick_nodup o ids limit⟩

/-- C6 (witness): the amended specification evaluated on a concrete pool of
three distinct ids with limit 2. -/
theorem pick_spec_amended_witness :
    (RandomPicker.pick (fun _ => 1) ["u1", "u2", "u3"] 2).1.length =
      min (Int.toNat 2) 3 ∧
    (∀ x ∈ (RandomPicker.pick (fun _ => 1) ["u1", "u2", "u3"] 2).1,
      x ∈ (["u1", "u2", "u3"] : List String)) ∧
    (RandomPicker.pick (fun _ => 1) ["u1", "u2", "u3"] 2).1.Nodup ∧
    (RandomPicker.pick (fun _ => 1) ["u1", "u2", "u3"] 2).2 = ["u1", "u2", "u3"] := by
  have h := pick_spec_amended (fun _ => 1) ["u1", "u2", "u3"] 2
  have h2 := h.2.1 (by decide) (by decide)
  exact ⟨h2.1, h2.2.1, h2.2.2 (by decide), h.2.2⟩

/-- C1 (counterexample): in `exSt` the author `a` is an active member of the
old reviewer `r1`'s team and the pull request `p` is OPEN, yet the
reassignment succeeds and puts the author into the reviewer set of the
author's own pull request: `ReassignReviewer` excludes only the old reviewer
and the currently assigned reviewers from the candidate pool, never the
author. -/
theorem reassign_selects_author_counterexample :
    (findPR exSt "p").map PRRow.authorID = some "a" ∧
    (findPR exSt "p").map PRRow.status = some .opened ∧
    findUser exSt "a" = some ⟨"a", "Alice", "t", true, 0⟩ ∧
    (findUser exSt "r1").map User.teamName = some "t" ∧
    (Service.reassignReviewer (fun _ => 0) exSt "p" "r1").2 =
      .ok (⟨"p", "Fix", "a", .opened, ["a"], 0, none⟩, "a") ∧
    "a" ∈ listAssignedReviewersTx
      (Service.reassignReviewer (fun _ => 0) exSt "p" "r1").1 "p" := by
  decide

/-- C1 (amended): in a well-formed state, the candidate pool of
`CreatePullRequest` excludes the author, so a successfully created pull
request never lists its author as reviewer; a successful `ReassignReviewer`
keeps the author out of the reviewer set only under the extra premises that
the author was not already a reviewer and is not in the computed reassignment
candidate pool — the code does not exclude the author from that pool, so an
active author in the old reviewer's team can be selected. -/
theorem author_never_reviewer_amended (st : State) (o : Nat → Nat)
    (hwf : st.WF) :
    (∀ input st' pr, Service.createPullRequest o st input = (st', .ok pr) →
      input.authorID ∉ pr.assigned) ∧
    (∀ prID oldUserID st' pr chosen,
      Service.reassignReviewer o st prID oldUserID = (st', .ok (pr, chosen)) →
      pr.authorID ∉ listAssignedReviewersTx st prID →
      (∀ u, findUser st oldUserID = some u →
        pr.authorID ∉ listActiveTeamMembersTx st u.teamName
          (oldUserID :: listAssignedReviewersTx st prID)) →
      pr.authorID ∉ pr.assigned) := by
  constructor
  · intro input st' pr h hmem
    unfold Service.createPullRequest at h
    obtain ⟨author, hau, hnot, hst, hpr⟩ := createPullRequest_ok st input _ st' pr h
    obtain ⟨hauMem, hauID⟩ := findUser_some st hau
    have hne : input.authorID ≠ "" := hauID ▸ hwf.2.2.2.2.2.1 author hauMem
    have hrows : listAssignedReviewersTx st' input.pullRequestID =
        (RandomPicker.pick o (listActiveTeamMembersTx st author.teamName
          [input.authorID]) 2).1 := by
      rw [hst]
      unfold listAssignedReviewersTx
      dsimp only
      rw [rows_filter_append, rows_eq_nil_of_not_mem st _ hwf.2.2.2.1 hnot]
      simp
    rw [hpr] at hmem
    dsimp only at hmem
    unfold listAssignedReviewers at hmem
    rw [List.mem_insertionSort, hrows] at hmem
    have hcand := RandomPicker.pick_mem o _ 2 hmem
    exact not_mem_listActiveTeamMembersTx st author.teamName [input.authorID]
      (List.mem_singleton_self _) hne hcand
  · intro prID oldUserID st' pr chosen h hnotbefore hnotpool hmem
    unfold Service.reassignReviewer at h
    obtain ⟨r, oldUser, hr, hmg, hou, hcont, hpick, hst, hpr⟩ :=
      reassignReviewer_ok st prID oldUserID _ st' pr chosen h
    rw [hpr] at hmem hnotbefore hnotpool
    dsimp only at hmem hnotbefore hnotpool
    unfold listAssignedReviewers at hmem
    rw [List.mem_insertionSort, hst] at hmem
    unfold listAssignedReviewersTx at hmem
    dsimp only at hmem
    rw [List.filter_append, List.map_append] at hmem
    rcases List.mem_append.mp hmem with hmem1 | hmem2
    · apply hnotbefore
      rcases List.mem_map.mp hmem1 with ⟨q, hq, hqsnd⟩
      rcases List.mem_filter.mp hq with ⟨hq1, hq2⟩
      rcases List.mem_filter.mp hq1 with ⟨hq3, _⟩
      unfold listAssignedReviewersTx
      exact hqsnd ▸ List.mem_map_of_mem Prod.snd (List.mem_filter.mpr ⟨hq3, hq2⟩)
    · have hch : r.authorID = chosen := by simpa using hmem2
      have hchPool := RandomPicker.pickOne_mem o _ hpick
      exact (hnotpool oldUser hou) (hch ▸ hchPool)

/-- C1 (witness): the amended creation-side exclusion instantiated on the
concrete state `exSt`. -/
theorem author_never_reviewer_amended_witness :
    exSt.WF ∧
    (∀ input st' pr,
      Service.createPullRequest (fun _ => 0) exSt input = (st', .ok pr) →
      input.authorID ∉ pr.assigned) :=
  ⟨by decide, (author_never_reviewer_amended exSt (fun _ => 0) (by decide)).1⟩

/-- C2 (counterexample): with the pull request `p` of `exSt` and a storage
failure injected into the first post-commit read of `GetPullRequest` (step 9),
`ReassignReviewer` returns a failure outcome although the replacement has
been committed: the reviewer rows of `p` after the call differ from the rows
before it. -/
theorem reassign_failure_mutates_counterexample :
    ((reassignReviewerDb (fun k : Nat => k == 9) exSt "p" "r1"
        (RandomPicker.pickOne (fun _ => 0))).2 =
      .error (.internal "query failed")) ∧
    (reassignReviewerDb (fun k : Nat => k == 9) exSt "p" "r1"
        (RandomPicker.pickOne (fun _ => 0))).1.reviewers.filter
        (fun q => q.1 == "p") ≠
      exSt.reviewers.filter (fun q => q.1 == "p") := by
  decide

/-- C2 (amended): for every failure outcome of `ReassignReviewer`, the
reviewer rows of the pull request after the call are either identical to the
rows before the call, or — only when a storage failure hits the post-commit
read-back — the complete committed replacement (old pair removed and chosen
pair inserted, atomically); a partial replacement is never observable, and
whenever no storage failure hits the post-commit read-back a failing call
leaves the whole state untouched. -/
theorem reassign_failure_no_partial (fail : Nat → Bool) (st : State)
    (prID oldUserID : String) (pick : List String → Option String) (e : AppErr)
    (h : (reassignReviewerDb fail st prID oldUserID pick).2 = .error e) :
    ((reassignReviewerDb fail st prID oldUserID pick).1.reviewers.filter
        (fun q => q.1 == prID)
      = st.reviewers.filter (fun q => q.1 == prID) ∨
     ∃ chosen,
      (reassignReviewerDb fail st prID oldUserID pick).1.reviewers =
        (st.reviewers.filter (fun p => !(p.1 == prID && p.2 == oldUserID)))
          ++ [(prID, chosen)]) ∧
    (fail 9 = false → fail 10 = false →
      (reassignReviewerDb fail st prID oldUserID pick).1 = st) := by
  constructor
  · rcases reassignReviewerDb_cases fail st prID oldUserID pick with
      hc | ⟨u, chosen, _, _, hc, _⟩
    · exact Or.inl (by rw [hc])
    · exact Or.inr ⟨chosen, by rw [hc]⟩
  · intro hf9 hf10
    exact reassignReviewerDb_error_rollback fail st prID oldUserID pick
      hf9 hf10 e h

/-- C2 (witness): the amended no-partial-replacement property evaluated on a
concrete failing schedule (the transaction fails to begin). -/
theorem reassign_failure_no_partial_witness :
    ((reassignReviewerDb (fun k : Nat => k == 0) exSt "p" "r1"
        (RandomPicker.pickOne (fun _ => 0))).2 =
      .error (.internal "begin tx failed")) ∧
    (((reassignReviewerDb (fun k : Nat => k == 0) exSt "p" "r1"
          (RandomPicker.pickOne (fun _ => 0))).1.reviewers.filter
          (fun q => q.1 == "p")
        = exSt.reviewers.filter (fun q => q.1 == "p") ∨
      ∃ chosen,
        (reassignReviewerDb (fun k : Nat => k == 0) exSt "p" "r1"
            (RandomPicker.pickOne (fun _ => 0))).1.reviewers =
          (exSt.reviewers.filter (fun p => !(p.1 == "p" && p.2 == "r1")))
            ++ [("p", chosen)]) ∧
     ((fun k : Nat => k == 0) 9 = false → (fun k : Nat => k == 0) 10 = false →
      (reassignReviewerDb (fun k : Nat => k == 0) exSt "p" "r1"
        (RandomPicker.pickOne (fun _ => 0))).1 = exSt)) :=
  ⟨by decide,
    reassign_failure_no_partial (fun k : Nat => k == 0) exSt "p" "r1"
      (RandomPicker.pickOne (fun _ => 0)) (.internal "begin tx failed")
      (by decide)⟩

/-- In a well-formed state with `oldUserID` actually assigned, the code's
candidate pool coincides with the claim's description of it. -/
theorem reassignPool_eq_spec (st : State) (prID oldUserID teamName : String)
    (hwf : st.WF) (hmem : (prID, oldUserID) ∈ st.reviewers) :
    listActiveTeamMembersTx st teamName
      (oldUserID :: listAssignedReviewersTx st prID)
      = specReassignPool st prID oldUserID teamName := by
  have hne : ∀ x ∈ (oldUserID :: listAssignedReviewersTx st prID), x ≠ "" := by
    intro x hx
    rcases List.mem_cons.mp hx with h | h
    · rw [h]
      have h5 := hwf.2.2.2.2.1 (prID, oldUserID) hmem
      rcases List.mem_map.mp h5 with ⟨u, hu, hid⟩
      have hid2 : u.userID = oldUserID := hid
      exact hid2 ▸ hwf.2.2.2.2.2.1 u hu
    · unfold listAssignedReviewersTx at h
      rcases List.mem_map.mp h with ⟨q, hq, hx2⟩
      have hq' : q ∈ st.reviewers := (List.mem_filter.mp hq).1
      have h5 := hwf.2.2.2.2.1 q hq'
      rcases List.mem_map.mp h5 with ⟨u, hu, hid⟩
      exact hx2 ▸ hid ▸ hwf.2.2.2.2.2.1 u hu
  rw [listActiveTeamMembersTx_of_nonempty_ids st teamName _ hne]
  unfold specReassignPool
  congr 1
  apply List.filter_congr
  intro u _
  rw [List.contains_cons]
  cases (u.teamName == teamName) <;> cases u.isActive <;>
    cases (u.userID == oldUserID) <;>
      cases ((listAssignedReviewersTx st prID).contains u.userID) <;> rfl

/-- C3: `ReassignReviewer` (wired to the random picker's `PickOne`) checks
its failure conditions in exactly the source order and returns the matching
error kind at the first condition that holds: pull request absent ->
NotFound; MERGED status -> PRMerged; old reviewer not a known member ->
NotFound; old reviewer not currently assigned -> NotAssigned; empty candidate
pool (active members of the old reviewer's team minus the old reviewer and
all currently assigned reviewers) -> NoCandidate.  In every case the state is
returned untouched. -/
theorem reassign_error_order (st : State) (prID oldUserID : String)
    (o : Nat → Nat) (hwf : st.WF) :
    (findPR st prID = none →
      Service.reassignReviewer o st prID oldUserID =
        (st, .error (.notFound "pull request not found"))) ∧
    (∀ r, findPR st prID = some r → r.status = .merged →
      Service.reassignReviewer o st prID oldUserID =
        (st, .error .prMerged)) ∧
    (∀ r, findPR st prID = some r → r.status ≠ .merged →
      findUser st oldUserID = none →
      Service.reassignReviewer o st prID oldUserID =
        (st, .error (.notFound "reviewer not found"))) ∧
    (∀ r u, findPR st prID = some r → r.status ≠ .merged →
      findUser st oldUserID = some u → (prID, oldUserID) ∉ st.reviewers →
      Service.reassignReviewer o st prID oldUserID =
        (st, .error .notAssigned)) ∧
    (∀ r u, findPR st prID = some r → r.status ≠ .merged →
      findUser st oldUserID = some u → (prID, oldUserID) ∈ st.reviewers →
      specReassignPool st prID oldUserID u.teamName = [] →
      Service.reassignReviewer o st prID oldUserID =
        (st, .error .noCandidate)) := by
  refine ⟨?_, ?_, ?_, ?_, ?_⟩
  · intro h
    simp [Service.reassignReviewer, reassignReviewer, h]
  · intro r hr hm
    simp [Service.reassignReviewer, reassignReviewer, hr, hm]
  · intro r hr hm hu
    simp [Service.reassignReviewer, reassignReviewer, hr, hm, hu]
  · intro r u hr hm hu hnot
    have hcf : st.reviewers.contains (prID, oldUserID) = false := by
      cases hc : st.reviewers.contains (prID, oldUserID)
      · rfl
      · exact absurd (List.elem_iff.mp hc) hnot
    simp [Service.reassignReviewer, reassignReviewer, hr, hm, hu, hcf, hnot]
  · intro r u hr hm hu hmemrev hpool
    have hct : st.reviewers.contains (prID, oldUserID) = true :=
      List.elem_iff.mpr hmemrev
    have hpe := reassignPool_eq_spec st prID oldUserID u.teamName hwf hmemrev
    rw [hpool] at hpe
    have hpk : RandomPicker.pickOne o ([] : List String) = none :=
      (RandomPicker.pickOne_eq_none_iff o []).mpr rfl
    simp [Service.reassignReviewer, reassignReviewer, hr, hm, hu, hct, hpe,
      hpk, hmemrev]

/-- C3 (witness): two of the ordered failure checks evaluated on the concrete
state `exSt`: an absent pull request id yields NotFound, and a member that is
not currently assigned yields NotAssigned. -/
theorem reassign_error_order_witness :
    Service.reassignReviewer (fun _ => 0) exSt "nope" "r1" =
      (exSt, .error (.notFound "pull request not found")) ∧
    Service.reassignReviewer (fun _ => 0) exSt "p" "a" =
      (exSt, .error .notAssigned) :=
  ⟨(reassign_error_order exSt "nope" "r1" (fun _ => 0) (by decide)).1 (by decide),
   (reassign_error_order exSt "p" "a" (fun _ => 0) (by decide)).2.2.2.1
     ⟨"p", "Fix", "a", .opened, 0, none⟩ ⟨"a", "Alice", "t", true, 0⟩
     (by decide) (by decide) (by decide) (by decide)⟩

/-- `statusOf` only reads the `pull_requests` table. -/
theorem statusOf_congr {st1 st2 : State} (h : st1.prs = st2.prs)
    (pid : String) : statusOf st1 pid = statusOf st2 pid := by
  unfold statusOf findPR
  rw [h]

/-- The row updater of `MergePullRequest` preserves the primary key. -/
theorem mergeUpdater_key (prID : String) (now : Nat) : ∀ x : PRRow,
    ((fun x : PRRow => if x.prID == prID then
      { x with status := Status.merged, mergedAt := some (x.mergedAt.getD now) }
      else x) x).prID = x.prID := by
  intro x
  dsimp only
  split <;> rfl

/-- C4: `MergePullRequest` fails with NotFound on an absent id and is
idempotent on a present one: the first successful call returns a MERGED
record, and re-applying the call at any later clock returns success with
`mergedAt` exactly as the first call set it, status still MERGED, and the
stored row unchanged; moreover a MERGED status is never reversed by any store
operation. -/
theorem mergePullRequest_props (st : State) (prID : String) :
    (findPR st prID = none →
      mergePullRequest st prID =
        (st, .error (.notFound "pull request not found"))) ∧
    (∀ st1 pr1, mergePullRequest st prID = (st1, .ok pr1) →
      pr1.status = .merged ∧
      ∀ t2, ∃ pr2,
        (mergePullRequest { st1 with now := t2 } prID).2 = .ok pr2 ∧
        pr2.mergedAt = pr1.mergedAt ∧ pr2.status = .merged ∧
        findPR (mergePullRequest { st1 with now := t2 } prID).1 prID =
          findPR st1 prID) ∧
    (statusOf st prID = some .merged →
      (∀ team, statusOf (createTeam st team).1 prID = some .merged) ∧
      (∀ uid b, statusOf (setUserActive st uid b).1 prID = some .merged) ∧
      (∀ input pick,
        statusOf (createPullRequest st input pick).1 prID = some .merged) ∧
      (∀ pid, statusOf (mergePullRequest st pid).1 prID = some .merged) ∧
      (∀ pid old pick,
        statusOf (reassignReviewer st pid old pick).1 prID = some .merged)) := by
  refine ⟨mergePullRequest_none st prID, ?_, ?_⟩
  · intro st1 pr1 h
    cases hr : findPR st prID with
    | none =>
        rw [mergePullRequest_none st prID hr] at h
        exact absurd h (by simp)
    | some r =>
        rw [mergePullRequest_some st prID r hr] at h
        simp only [Prod.mk.injEq, Except.ok.injEq] at h
        obtain ⟨hst1, hpr1⟩ := h
        have hkey : r.prID = prID := (findPR_some st hr).2
        constructor
        · rw [← hpr1]
        · intro t2
          have hfind1 : findPR st1 prID = some
              { r with
                  status := .merged,
                  mergedAt := some (r.mergedAt.getD st.now) } := by
            rw [← hst1]
            unfold findPR
            dsimp only
            rw [find?_map_of_key_preserving _ (mergeUpdater_key prID st.now) prID
              st.prs]
            have hfr : st.prs.find? (fun x => x.prID == prID) = some r := hr
            rw [hfr]
            simp only [Option.map_some']
            rw [if_pos (by simp [hkey])]
          have hfind2 : findPR { st1 with now := t2 } prID = some
              { r with
                  status := .merged,
                  mergedAt := some (r.mergedAt.getD st.now) } := hfind1
          rw [mergePullRequest_some { st1 with now := t2 } prID _ hfind2]
          refine ⟨_, rfl, ?_, rfl, ?_⟩
          · rw [← hpr1]
            simp
          · unfold findPR
            dsimp only
            rw [find?_map_of_key_preserving _ (mergeUpdater_key prID t2) prID
              ({ st1 with now := t2 } : State).prs]
            have hfr2 : ({ st1 with now := t2 } : State).prs.find?
                (fun x => x.prID == prID) = some
                { r with
                    status := .merged,
                    mergedAt := some (r.mergedAt.getD st.now) } := hfind2
            rw [hfr2]
            simp [hkey]
  · intro hms
    have hex : ∃ r, findPR st prID = some r ∧ r.status = .merged := by
      unfold statusOf at hms
      cases hfp : findPR st prID with
      | none => rw [hfp] at hms; exact absurd hms (by simp)
      | some r =>
          rw [hfp] at hms
          simp at hms
          exact ⟨r, rfl, hms⟩
    obtain ⟨r, hfp, hrs⟩ := hex
    refine ⟨?_, ?_, ?_, ?_, ?_⟩
    · intro team
      rw [statusOf_congr (createTeam_frame st team).1 prID]
      exact hms
    · intro uid b
      rw [statusOf_congr (setUserActive_frame st uid b).2.1 prID]
      exact hms
    · intro input pick
      rcases createPullRequest_prs st input pick with hp | hp
      · unfold statusOf findPR at hms ⊢
        rw [hp]
        exact hms
      · unfold statusOf findPR at hms ⊢
        rw [hp, List.find?_append]
        cases hfr : st.prs.find? (fun x => x.prID == prID) with
        | none => rw [hfr] at hms; exact absurd hms (by simp)
        | some r0 => rw [hfr] at hms; simpa using hms
    · intro pid
      cases hfp2 : findPR st pid with
      | none =>
          rw [mergePullRequest_none st pid hfp2]
          exact hms
      | some r2 =>
          rw [mergePullRequest_some st pid r2 hfp2]
          unfold statusOf findPR
          dsimp only
          rw [find?_map_of_key_preserving _ (mergeUpdater_key pid st.now) prID
            st.prs]
          have hfr : st.prs.find? (fun x => x.prID == prID) = some r := hfp
          rw [hfr]
          simp only [Option.map_some']
          split <;> simp [hrs]
    · intro pid old pick
      rw [statusOf_congr (reassignReviewer_prs st pid old pick) prID]
      exact hms

/-- C4 (witness): merging an absent id fails with NotFound; re-merging the
already-merged `p` at a later clock keeps `mergedAt` and status; and a merged
status survives a member-flag flip. -/
theorem mergePullRequest_props_witness :
    (mergePullRequest exSt "nope" =
      (exSt, .error (.notFound "pull request not found"))) ∧
    (∃ pr2,
      (mergePullRequest { (mergePullRequest exSt "p").1 with now := 5 } "p").2 =
        .ok pr2 ∧
      pr2.mergedAt = (⟨"p", "Fix", "a", .merged, ["r1"], 0, some 1⟩ :
        PullRequest).mergedAt ∧
      pr2.status = .merged ∧
      findPR (mergePullRequest
        { (mergePullRequest exSt "p").1 with now := 5 } "p").1 "p" =
        findPR (mergePullRequest exSt "p").1 "p") ∧
    statusOf (setUserActive (mergePullRequest exSt "p").1 "a" false).1 "p" =
      some .merged :=
  ⟨(mergePullRequest_props exSt "nope").1 (by decide),
   ((mergePullRequest_props exSt "p").2.1 (mergePullRequest exSt "p").1
      ⟨"p", "Fix", "a", .merged, ["r1"], 0, some 1⟩ (by decide)).2 5,
   (((mergePullRequest_props (mergePullRequest exSt "p").1 "p").2.2
      (by decide)).2.1 "a" false)⟩

/-- With a single non-empty excluded id, the active-members query is the
plain "active members of the team other than that id". -/
theorem listActiveTeamMembersTx_singleton (st : State) (t a : String)
    (ha : a ≠ "") :
    listActiveTeamMembersTx st t [a] =
      (st.users.filter (fun u => u.teamName == t && u.isActive
        && !(u.userID == a))).map User.userID := by
  rw [listActiveTeamMembersTx_of_nonempty_ids st t [a]
    (fun x hx => (List.mem_singleton.mp hx) ▸ ha)]
  congr 1
  apply List.filter_congr
  intro u _
  rw [List.contains_cons]
  cases (u.teamName == t) <;> cases u.isActive <;>
    cases (u.userID == a) <;> rfl

/-- C5: a successful `CreatePullRequest` (wired to the random picker) assigns
exactly `min 2 n` reviewers, where `n` is the number of active members of the
author's team other than the author, and every assigned reviewer is drawn
from that pool; in particular 0 or 1 reviewers are legitimate when the pool
is small. -/
theorem createPullRequest_reviewer_count (st : State) (o : Nat → Nat)
    (input : CreatePullRequestInput) (st' : State) (pr : PullRequest)
    (author : User) (hwf : st.WF)
    (hau : findUser st input.authorID = some author)
    (h : Service.createPullRequest o st input = (st', .ok pr)) :
    pr.assigned.length = min 2 ((st.users.filter (fun u =>
        u.teamName == author.teamName && u.isActive
        && !(u.userID == input.authorID))).map User.userID).length ∧
    ∀ x ∈ pr.assigned, x ∈ (st.users.filter (fun u =>
        u.teamName == author.teamName && u.isActive
        && !(u.userID == input.authorID))).map User.userID := by
  unfold Service.createPullRequest at h
  obtain ⟨author0, hau0, hnot, hst, hpr⟩ := createPullRequest_ok st input _ st' pr h
  have heqa : author0 = author := Option.some.inj (hau0.symm.trans hau)
  subst heqa
  obtain ⟨hauMem, hauID⟩ := findUser_some st hau0
  have hne : input.authorID ≠ "" := hauID ▸ hwf.2.2.2.2.2.1 author0 hauMem
  have hpool := listActiveTeamMembersTx_singleton st author0.teamName
    input.authorID hne
  have hrows : listAssignedReviewersTx st' input.pullRequestID =
      (RandomPicker.pick o (listActiveTeamMembersTx st author0.teamName
        [input.authorID]) 2).1 := by
    rw [hst]
    unfold listAssignedReviewersTx
    dsimp only
    rw [rows_filter_append, rows_eq_nil_of_not_mem st _ hwf.2.2.2.1 hnot]
    simp
  have hassigned : pr.assigned = List.insertionSort idLe
      (RandomPicker.pick o (listActiveTeamMembersTx st author0.teamName
        [input.authorID]) 2).1 := by
    rw [hpr]
    dsimp only
    unfold listAssignedReviewers
    rw [hrows]
  constructor
  · rw [hassigned, List.length_insertionSort]
    by_cases hc : listActiveTeamMembersTx st author0.teamName
        [input.authorID] = []
    · rw [RandomPicker.pick_eq_nil o _ 2 (Or.inr hc), ← hpool, hc]
      simp
    · rw [RandomPicker.pick_length o _ 2 (by norm_num) hc, ← hpool]
      rfl
  · intro x hx
    rw [hassigned, List.mem_insertionSort] at hx
    rw [← hpool]
    exact RandomPicker.pick_mem o _ 2 hx

/-- C5 (witness): creating a pull request in `exSt` authored by `a`, whose
team has exactly one other active member `r1`, yields exactly one assigned
reviewer, `r1`, drawn from the pool. -/
theorem createPullRequest_reviewer_count_witness :
    (⟨"q", "New", "a", .opened, ["r1"], 1, none⟩ : PullRequest).assigned.length
      = min 2 ((exSt.users.filter (fun u => u.teamName == "t" && u.isActive
          && !(u.userID == "a"))).map User.userID).length ∧
    ∀ x ∈ (⟨"q", "New", "a", .opened, ["r1"], 1, none⟩ : PullRequest).assigned,
      x ∈ (exSt.users.filter (fun u => u.teamName == "t" && u.isActive
          && !(u.userID == "a"))).map User.userID :=
  createPullRequest_reviewer_count exSt (fun _ => 0) ⟨"q", "New", "a"⟩
    { exSt with
        prs := exSt.prs ++ [⟨"q", "New", "a", .opened, 1, none⟩],
        reviewers := [("p", "r1"), ("q", "r1")] }
    ⟨"q", "New", "a", .opened, ["r1"], 1, none⟩
    ⟨"a", "Alice", "t", true, 0⟩
    (by decide) (by decide) (by decide)

/-- C7: `CreateTeam` fails with AlreadyExists whenever a team with the given
name already exists, and then the whole state — in particular the existing
team's member roster — is unchanged (no team row, user row or flag is
written); on success it returns the persisted team with its member roster
sorted by username. -/
theorem createTeam_props (st : State) (team : Team) :
    (team.teamName ∈ st.teams →
      createTeam st team = (st, .error .teamExists)) ∧
    (∀ st' t, createTeam st team = (st', .ok t) →
      t.teamName = team.teamName ∧ List.Sorted byUsername t.members) := by
  constructor
  · intro hmem
    unfold createTeam
    rw [if_pos (List.elem_iff.mpr hmem)]
  · intro st' t h
    unfold createTeam at h
    split at h
    · exact absurd h (by simp)
    · rename_i hnc
      dsimp only at h
      have hc : (st.teams ++ [team.teamName]).contains team.teamName = true :=
        List.elem_iff.mpr (List.mem_append.mpr (Or.inr (List.mem_singleton_self _)))
      split at h
      · rename_i t0 hgt
        unfold getTeam at hgt
        rw [if_pos hc] at hgt
        simp only [Except.ok.injEq] at hgt
        simp only [Prod.mk.injEq, Except.ok.injEq] at h
        have ht : t = ⟨team.teamName,
            listTeamMembers { st with
              teams := st.teams ++ [team.teamName],
              users := team.members.foldl
                (fun us m => upsertUser us m team.teamName st.now) st.users }
              team.teamName⟩ := h.2 ▸ hgt.symm
        constructor
        · rw [ht]
        · rw [ht]
          unfold listTeamMembers
          exact List.sorted_insertionSort byUsername _
      · rename_i e hgt
        exfalso
        unfold getTeam at hgt
        rw [if_pos hc] at hgt
        exact absurd hgt (by simp)

/-- C7 (witness): re-creating team `t` of `exSt` fails with AlreadyExists and
leaves the state untouched; creating a fresh team `s` returns it with a
roster sorted by username. -/
theorem createTeam_props_witness :
    createTeam exSt ⟨"t", []⟩ = (exSt, .error .teamExists) ∧
    ((⟨"s", [⟨"u1", "Bob", false⟩, ⟨"u2", "Zed", true⟩]⟩ : Team).teamName = "s" ∧
      List.Sorted byUsername
        [(⟨"u1", "Bob", false⟩ : TeamMember), ⟨"u2", "Zed", true⟩]) :=
  ⟨(createTeam_props exSt ⟨"t", []⟩).1 (by decide),
   (createTeam_props exSt ⟨"s", [⟨"u2", "Zed", true⟩, ⟨"u1", "Bob", false⟩]⟩).2
     { exSt with
         teams := ["t", "s"],
         users := exSt.users ++
           [⟨"u2", "Zed", "s", true, 1⟩, ⟨"u1", "Bob", "s", false, 1⟩] }
     ⟨"s", [⟨"u1", "Bob", false⟩, ⟨"u2", "Zed", true⟩]⟩ (by decide)⟩

/-- C8: `SetUserActive` fails with NotFound for an unknown member id, leaving
everything unchanged; for a known id it updates exactly that member's active
flag and update timestamp, returns the updated member, and leaves teams,
every pull request, every reviewer-assignment row, and every other member
unchanged — in particular it never removes an inactive member from reviewer
sets they already belong to. -/
theorem setUserActive_props (st : State) (uid : String) (b : Bool) :
    (findUser st uid = none →
      setUserActive st uid b = (st, .error (.notFound "user not found"))) ∧
    (∀ u, findUser st uid = some u →
      setUserActive st uid b =
        ({ st with users := st.users.map (fun v =>
            if v.userID == uid then { v with isActive := b, updatedAt := st.now }
            else v) },
         .ok { u with isActive := b, updatedAt := st.now }) ∧
      (setUserActive st uid b).1.teams = st.teams ∧
      (setUserActive st uid b).1.prs = st.prs ∧
      (setUserActive st uid b).1.reviewers = st.reviewers ∧
      (∀ v ∈ st.users, v.userID ≠ uid →
        v ∈ (setUserActive st uid b).1.users) ∧
      (∀ w ∈ (setUserActive st uid b).1.users, w.userID ≠ uid →
        w ∈ st.users)) := by
  constructor
  · intro h
    unfold setUserActive
    rw [h]
  · intro u hu
    refine ⟨?_, (setUserActive_frame st uid b).1,
      (setUserActive_frame st uid b).2.1, (setUserActive_frame st uid b).2.2,
      ?_, ?_⟩
    · unfold setUserActive
      rw [hu]
    · intro v hv hne
      unfold setUserActive
      rw [hu]
      dsimp only
      have hfix : (if (v.userID == uid) = true then
          { v with isActive := b, updatedAt := st.now } else v) = v := by
        rw [if_neg (by simpa using hne)]
      exact hfix ▸ List.mem_map_of_mem _ hv
    · intro w hw hne
      unfold setUserActive at hw
      rw [hu] at hw
      dsimp only at hw
      rcases List.mem_map.mp hw with ⟨v, hv, hvw⟩
      by_cases hb : (v.userID == uid) = true
      · exfalso
        rw [if_pos hb] at hvw
        have : w.userID = uid := by
          rw [← hvw]
          simpa using hb
        exact hne this
      · rw [if_neg hb] at hvw
        exact hvw ▸ hv

/-- C8 (witness): flipping an unknown id fails with NotFound; deactivating
the assigned reviewer `a` of `exSt` leaves all reviewer rows in place. -/
theorem setUserActive_props_witness :
    setUserActive exSt "zzz" false =
      (exSt, .error (.notFound "user not found")) ∧
    (setUserActive exSt "a" false).1.reviewers = exSt.reviewers :=
  ⟨(setUserActive_props exSt "zzz" false).1 (by decide),
   ((setUserActive_props exSt "a" false).2 ⟨"a", "Alice", "t", true, 0⟩
     (by decide)).2.2.2.1⟩

/-- C9: `GetUserReviews` returns exactly the pull requests that currently
have a reviewer-assignment row for the user (MERGED ones included), newest
first by creation timestamp, and the result does not depend on the `users`
table at all — in particular not on the user's active flag. -/
theorem getUserReviews_props (st : State) (uid : String) (hwf : st.WF) :
    ((getUserReviews st uid).pullRequests = (getUserReviewsRows st uid).map
      (fun r => ⟨r.prID, r.prName, r.authorID, r.status⟩)) ∧
    (∀ r : PRRow, r ∈ getUserReviewsRows st uid ↔
      (r ∈ st.prs ∧ (r.prID, uid) ∈ st.reviewers)) ∧
    List.Sorted byCreatedDesc (getUserReviewsRows st uid) ∧
    (∀ st2 : State, st2.prs = st.prs → st2.reviewers = st.reviewers →
      getUserReviews st2 uid = getUserReviews st uid) := by
  refine ⟨rfl, ?_, ?_, ?_⟩
  · intro r
    unfold getUserReviewsRows
    rw [List.mem_insertionSort]
    constructor
    · intro hr
      rcases List.mem_filterMap.mp hr with ⟨p, hp, hpe⟩
      by_cases hb : (p.2 == uid) = true
      · rw [if_pos hb] at hpe
        obtain ⟨hrmem, hrkey⟩ := findPR_some st hpe
        refine ⟨hrmem, ?_⟩
        have hp2 : p.2 = uid := by simpa using hb
        have hp1 : p.1 = r.prID := hrkey.symm
        have hpeq : p = (r.prID, uid) := by
          rw [← hp1, ← hp2]
        exact hpeq ▸ hp
      · rw [if_neg hb] at hpe
        exact absurd hpe (by simp)
    · rintro ⟨hrmem, hprev⟩
      apply List.mem_filterMap.mpr
      refine ⟨(r.prID, uid), hprev, ?_⟩
      rw [if_pos (by simp)]
      unfold findPR
      exact find?_key_of_mem hwf.2.1 hrmem
  · unfold getUserReviewsRows
    exact List.sorted_insertionSort byCreatedDesc _
  · intro st2 hprs hrev
    unfold getUserReviews getUserReviewsRows
    rw [hrev]
    have hf : (fun p : String × String =>
        if p.2 == uid then findPR st2 p.1 else none) =
        (fun p : String × String =>
        if p.2 == uid then findPR st p.1 else none) := by
      funext p
      unfold findPR
      rw [hprs]
    rw [hf]

/-- C9 (witness): in `exSt`, the open pull request `p` is listed for its
reviewer `r1` exactly because a reviewer row exists, and the returned rows
are sorted newest first. -/
theorem getUserReviews_props_witness :
    ((⟨"p", "Fix", "a", .opened, 0, none⟩ : PRRow) ∈
        getUserReviewsRows exSt "r1" ↔
      ((⟨"p", "Fix", "a", .opened, 0, none⟩ : PRRow) ∈ exSt.prs ∧
        ("p", "r1") ∈ exSt.reviewers)) ∧
    List.Sorted byCreatedDesc (getUserReviewsRows exSt "r1") :=
  ⟨(getUserReviews_props exSt "r1" (by decide)).2.1 _,
   (getUserReviews_props exSt "r1" (by decide)).2.2.1⟩

end PRReviewer
